import Mathlib

/-!
Verification of the VeriGen differential fuzzer core against its
natural-language specification.

The development shallowly embeds the C++ sources:
  * the orchestrator's per-tool outcome classification and exit codes
    (`main.cpp`),
  * the `CompareSim` meta-backend (`tools/compare_sim.hpp`),
  * the expression/statement AST with its dual emit/eval operations,
    in the two versions present in the repository (the generator's
    `ast.hpp`, here namespace `veri`, and the legacy copy, here
    namespace `ast0`),
  * the loop (`for`-generate) design generator with its oracle,
  * the hierarchy generator's tree structure, path normalisation,
    leaf lookup and emission.

C++ `std::string` values are embedded as Lean `String`/`List Char`;
`uint32_t` is embedded as `Nat` with explicit reduction modulo `2 ^ 32`
where overflow can occur.  The Mersenne-twister RNG together with the
implementation-defined `std::uniform_*_distribution` mappings is
abstracted as a stream of raw draws `Nat → Nat`: every random draw of
the C++ code consumes exactly one stream element, in program order, and
maps it into the requested range.  All claims are either independent of
the particular in-range mapping or quantify over the whole stream.
-/

/-! ### Generic string helpers (shared by several embeddings) -/

/-- Wrap-around modulus of the 32-bit machine integers used throughout. -/
def U32 : Nat := 2 ^ 32

/-- Prefix test on character lists (`std::string::rfind(pre, 0) == 0`). -/
def startsWithL : List Char → List Char → Bool
  | [], _ => true
  | _ :: _, [] => false
  | p :: ps, c :: cs => p == c && startsWithL ps cs

/-- Index of the first occurrence of `c` (`std::string::find(c)`). -/
def findCh (c : Char) : List Char → Option Nat
  | [] => none
  | a :: rest => if a == c then some 0 else (findCh c rest).map (· + 1)

/-- Substring test (used to state facts about emitted Verilog text). -/
def containsSub (needle : List Char) : List Char → Bool
  | [] => needle.isEmpty
  | a :: rest => startsWithL needle (a :: rest) || containsSub needle rest

/-- Lower-case hexadecimal digit, as produced by `std::hex`. -/
def hexDigit (n : Nat) : Char :=
  if n < 10 then Char.ofNat (48 + n) else Char.ofNat (87 + n)

/-- Fixed-width lower-case hexadecimal rendering; `hexN 8 v` matches
`std::hex << std::setw(8) << std::setfill('0') << v` for `v < 2^32`. -/
def hexN : Nat → Nat → String
  | 0, _ => ""
  | w + 1, v => hexN w (v / 16) ++ String.mk [hexDigit (v % 16)]

/-! ### Orchestrator: tool results, outcome counting, exit codes
(from `main.cpp` and `tools/tool.hpp`) -/

namespace orch

/-- From `tools/tool.hpp`: result record returned by every backend. -/
structure ToolResult where
  success : Bool
  value : Nat
  log : String
deriving DecidableEq, Repr

/-- From `main.cpp`: the three outcome counters accumulated across
iterations. -/
structure Counters where
  crash : Nat
  mismatch : Nat
  timeout : Nat
deriving DecidableEq, Repr

/-- From `main.cpp` lines 210-221: per-tool counter update inside the
iteration loop.  The crash counter is bumped when `success` is false;
the mismatch counter is bumped when the tool is not `CompareSim` and the
returned value differs from the golden value (the source performs no
`success` check on this second branch). -/
def recordTool (name : String) (res : ToolResult) (golden : Nat)
    (c : Counters) : Counters :=
  let c1 := if res.success = false then
    { c with crash := c.crash + 1 } else c
  if name ≠ "CompareSim" ∧ res.value ≠ golden then
    { c1 with mismatch := c1.mismatch + 1 } else c1

/-- From `main.cpp` lines 249-252: final exit code from the counters. -/
def exitCode (c : Counters) : Nat :=
  if c.crash = 0 ∧ c.mismatch = 0 ∧ c.timeout = 0 then 0
  else if c.crash ≠ 0 then 3
  else if c.timeout ≠ 0 then 2
  else 1

/-- From `tools/compare_sim.hpp` `CompareSimTool::run`: the two child
backends are run in order (Icarus first, then ModelSim) against a world
state `w`; failure of either child, or disagreement of the two 32-bit
values, yields `success = false`, otherwise the common value is
returned.  The child backends are abstract state transformers so that
the sequential composition of their effects is part of the embedding. -/
def compareSimRun {W : Type} (runIcarus runModelsim : W → ToolResult × W)
    (w : W) : ToolResult × W :=
  let pI := runIcarus w
  let rI := pI.1
  let pM := runModelsim pI.2
  let rM := pM.1
  if rI.success = false ∨ rM.success = false then
    ({ success := false
       value := if rI.success then rM.value else rI.value
       log := "=== Icarus log ===\n" ++ rI.log ++
              "\n=== ModelSim log ===\n" ++ rM.log }, pM.2)
  else if rI.value ≠ rM.value then
    ({ success := false
       value := rI.value
       log := "Mismatch: Icarus=0x" ++ hexN 8 rI.value ++
              "  ModelSim=0x" ++ hexN 8 rM.value }, pM.2)
  else
    ({ success := true, value := rI.value, log := "" }, pM.2)

end orch

/-! ### Legacy AST (`ast.hpp`): five binary operators, environment-free
evaluation.  `Const::emit` renders `32'd<value>` when no symbolic alias
is set.  `WireRef::eval` throws, and `BinExpr::eval` reads
`ops.front()` without an emptiness guard; both failure modes are
embedded as `none`. -/

namespace ast0

inductive BinOp where
  | add
  | sub
  | and
  | or
  | xor
deriving DecidableEq, Repr

/-- Operator token (`tok` in `ast.hpp`). -/
def tok : BinOp → String
  | .add => "+"
  | .sub => "-"
  | .and => "&"
  | .or => "|"
  | .xor => "^"

/-- 32-bit semantics of one operator application (the `switch` inside
`BinExpr::eval`); `+` and `-` wrap modulo `2 ^ 32`. -/
def apply32 : BinOp → Nat → Nat → Nat
  | .add, a, b => (a + b) % U32
  | .sub, a, b => (a + (U32 - b % U32)) % U32
  | .and, a, b => a &&& b
  | .or, a, b => a ||| b
  | .xor, a, b => a ^^^ b

mutual

inductive Expr where
  | const (value : Nat) (sym : String)
  | wireRef (name : String)
  | bin (op : BinOp) (ops : ExprList)

inductive ExprList where
  | nil
  | cons (e : Expr) (rest : ExprList)

end

mutual

/-- Evaluation (`Expr::eval` of `ast.hpp`): literals yield their value,
wire references throw (`none`), binary trees fold their operands
left-to-right starting from `ops.front()`. -/
def Expr.eval : Expr → Option Nat
  | .const v _ => some v
  | .wireRef _ => none
  | .bin op ops =>
    match ops with
    | .nil => none
    | .cons e rest =>
      match e.eval with
      | none => none
      | some acc => evalFold op acc rest

/-- The accumulating loop of `BinExpr::eval`. -/
def evalFold (op : BinOp) (acc : Nat) : ExprList → Option Nat
  | .nil => some acc
  | .cons e rest =>
    match e.eval with
    | none => none
    | some r => evalFold op (apply32 op acc r) rest

end

mutual

/-- Emission (`Expr::emit` of `ast.hpp`). -/
def Expr.emit : Expr → String
  | .const v sym => if sym = "" then "32'd" ++ toString v else sym
  | .wireRef name => name
  | .bin op ops =>
    "(" ++ (match ops with
            | .nil => ""
            | .cons e rest => e.emit ++ emitSep (" " ++ tok op ++ " ") rest)
        ++ ")"

/-- The `if (i) os << ' ' << tok(op) << ' '` separator loop of
`BinExpr::emit`. -/
def emitSep (sep : String) : ExprList → String
  | .nil => ""
  | .cons e rest => sep ++ e.emit ++ emitSep sep rest

end

/-- Statement helper: operand-wise evaluation (each operand evaluated
independently), used to express "all operands evaluate". -/
def evalAll : ExprList → Option (List Nat)
  | .nil => some []
  | .cons e rest =>
    match e.eval, evalAll rest with
    | some v, some vs => some (v :: vs)
    | _, _ => none

/-- Statement helper: the operands' individual emissions as a list. -/
def emitList : ExprList → List String
  | .nil => []
  | .cons e rest => e.emit :: emitList rest

end ast0

/-! ### Generator AST (`ast.hpp` as used by the build, file `part_002`):
two binary operators, evaluation against an environment vector.
`Const::emit` returns just the symbolic alias field. -/

namespace veri

inductive BinOp where
  | add
  | xor
deriving DecidableEq, Repr

/-- Operator token (`tok` in the generator's `ast.hpp`). -/
def tok : BinOp → String
  | .add => "+"
  | .xor => "^"

/-- 32-bit semantics of one operator application (the `switch` inside
`BinExpr::eval`); `+` wraps modulo `2 ^ 32`. -/
def apply32 : BinOp → Nat → Nat → Nat
  | .add, a, b => (a + b) % U32
  | .xor, a, b => a ^^^ b

mutual

inductive Expr where
  | const (value : Nat) (sym : String)
  | wireRef (name : String) (index : Int)
  | bin (op : BinOp) (ops : ExprList)

inductive ExprList where
  | nil
  | cons (e : Expr) (rest : ExprList)

end

mutual

/-- Evaluation against the value vector (`Expr::eval(values)`): wire
references read `values[index]` and throw when the index is negative or
out of range; a binary tree with an empty operand list returns `0`. -/
def Expr.eval (env : List Nat) : Expr → Option Nat
  | .const v _ => some v
  | .wireRef _ idx =>
    if idx < 0 ∨ env.length ≤ idx.toNat then none
    else some (env.getD idx.toNat 0)
  | .bin op ops =>
    match ops with
    | .nil => some 0
    | .cons e rest =>
      match e.eval env with
      | none => none
      | some acc => evalFold env op acc rest

/-- The accumulating loop of `BinExpr::eval`. -/
def evalFold (env : List Nat) (op : BinOp) (acc : Nat) :
    ExprList → Option Nat
  | .nil => some acc
  | .cons e rest =>
    match e.eval env with
    | none => none
    | some r => evalFold env op (apply32 op acc r) rest

end

mutual

/-- Emission (`Expr::emit`): a literal emits its (possibly empty)
symbolic alias, a wire reference its name, a binary tree its
parenthesised, token-separated operand list. -/
def Expr.emit : Expr → String
  | .const _ sym => sym
  | .wireRef name _ => name
  | .bin op ops =>
    "(" ++ (match ops with
            | .nil => ""
            | .cons e rest => e.emit ++ emitSep (" " ++ tok op ++ " ") rest)
        ++ ")"

/-- The `if (i) os << ' ' << tok(op) << ' '` separator loop of
`BinExpr::emit`. -/
def emitSep (sep : String) : ExprList → String
  | .nil => ""
  | .cons e rest => sep ++ e.emit ++ emitSep sep rest

end

/-- Statement helper: operand-wise evaluation. -/
def evalAll (env : List Nat) : ExprList → Option (List Nat)
  | .nil => some []
  | .cons e rest =>
    match e.eval env, evalAll env rest with
    | some v, some vs => some (v :: vs)
    | _, _ => none

/-- Statement helper: the operands' individual emissions as a list. -/
def emitList : ExprList → List String
  | .nil => []
  | .cons e rest => e.emit :: emitList rest

end veri

/-! ### Statements, modules and the loop (`for`-generate) generator
(file `part_002`, `veri::Stmt` hierarchy and `veri::Generator`) -/

namespace veri

/-- Indentation helper (`ind` in the source). -/
def ind (n : Nat) : String := String.mk (List.replicate n ' ')

mutual

inductive Stmt where
  | assign (lhs : String) (rhs : Expr)
  | inst (modName instName : String) (params : List String)
      (conns : List (String × String))
  | custom (fn : Nat → String)
  | genFor (var label : String) (start : Int) (cond update : String)
      (body : StmtList)
  | genCase (sel : Expr) (cases : CaseList) (dflt : StmtList)

inductive StmtList where
  | nil
  | cons (s : Stmt) (rest : StmtList)

inductive CaseList where
  | nil
  | cons (lbl : Expr) (body : StmtList) (rest : CaseList)

end

/-- Parameter list rendering of `Instance::emit` (`#(p0, p1, …)`). -/
def paramsText : List String → String
  | [] => ""
  | [p] => p
  | p :: rest => p ++ ", " ++ paramsText rest

/-- Port-connection rendering of `Instance::emit` (`.a(x), .b(y)`). -/
def connsText : List (String × String) → String
  | [] => ""
  | [c] => "." ++ c.1 ++ "(" ++ c.2 ++ ")"
  | c :: rest => "." ++ c.1 ++ "(" ++ c.2 ++ ")" ++ ", " ++ connsText rest

/-- Emptiness test on statement lists (`def.empty()` in the source). -/
def StmtList.isNil : StmtList → Bool
  | .nil => true
  | _ => false

/-- Concatenation of statement lists (successive `push_back` runs). -/
def stmtListAppend : StmtList → StmtList → StmtList
  | .nil, t => t
  | .cons s rest, t => .cons s (stmtListAppend rest t)

mutual

/-- Statement emission (`Stmt::emit(indent)` of the generator's
`ast.hpp`). -/
def Stmt.emit : Stmt → Nat → String
  | .assign lhs rhs, i => ind i ++ "assign " ++ lhs ++ " = " ++ rhs.emit ++ ";"
  | .inst modName instName params conns, i =>
    ind i ++ modName ++
      (if params.isEmpty then "" else " #(" ++ paramsText params ++ ")") ++
      " " ++ instName ++ " (" ++ connsText conns ++ ");"
  | .custom fn, i => fn i
  | .genFor var label start cond update body, i =>
    ind i ++ "genvar " ++ var ++ ";\n" ++
    ind i ++ "for(" ++ var ++ "=" ++ toString start ++ "; " ++ cond ++ "; " ++
      update ++ ") begin : " ++ label ++ "\n" ++
    emitBody body (i + 4) ++
    ind i ++ "end"
  | .genCase sel cases dflt, i =>
    let dfltTxt := emitBody dflt (i + 4)
    ind i ++ "case(" ++ sel.emit ++ ")\n" ++
    emitCases cases i ++
    (if dflt.isNil then ""
     else ind (i + 2) ++ "default: begin\n" ++ dfltTxt ++
          ind (i + 2) ++ "end\n") ++
    ind i ++ "endcase"

/-- The per-statement `os << s->emit(..) << "\n"` loops. -/
def emitBody : StmtList → Nat → String
  | .nil, _ => ""
  | .cons s rest, i => s.emit i ++ "\n" ++ emitBody rest i

/-- Case-arm rendering of `GenerateCase::emit`, including the
single-statement special case. -/
def emitCases : CaseList → Nat → String
  | .nil, _ => ""
  | .cons lbl (.cons s .nil) rest, i =>
    ind (i + 2) ++ lbl.emit ++ ": " ++ s.emit 0 ++ "\n" ++ emitCases rest i
  | .cons lbl body rest, i =>
    ind (i + 2) ++ lbl.emit ++ ": " ++ "begin\n" ++ emitBody body (i + 4) ++
    ind (i + 2) ++ "end\n" ++ emitCases rest i

end

/-- Module container (`veri::Module`). -/
structure Module where
  name : String
  ports : List String
  body : StmtList

/-- Port-list rendering of `Module::emit`. -/
def portsText : List String → String
  | [] => ""
  | [p] => "    " ++ p ++ "\n"
  | p :: rest => "    " ++ p ++ ",\n" ++ portsText rest

/-- Module emission (`Module::emit`). -/
def Module.emit (m : Module) : String :=
  "module " ++ m.name ++ "(\n" ++ portsText m.ports ++ ");\n" ++
  emitBody m.body 2 ++ "endmodule\n"

/-! The RNG model: `std::mt19937` seeded and then consumed strictly in
program order is abstracted as a raw draw stream with a position; each
`std::uniform_*_distribution` call and each raw `rng()` call consumes
exactly one stream element. -/

structure Rng where
  stream : Nat → Nat
  pos : Nat

/-- One raw `rng()` call (mt19937 yields 32-bit words). -/
def Rng.next (r : Rng) : Nat × Rng :=
  (r.stream r.pos % U32, { r with pos := r.pos + 1 })

/-- Model of `std::uniform_int_distribution<>(lo, hi)(rng)`: one draw,
mapped into `[lo, hi]`.  Degenerate ranges (`lo = hi`) are forced to
`lo` whatever the stream says, as the C++ distribution guarantees. -/
def uniformInt (lo hi : Int) (r : Rng) : Int × Rng :=
  let p := r.next
  let m := (hi - lo + 1).toNat
  (lo + Int.ofNat (if m = 0 then 0 else p.1 % m), p.2)

/-- Model of `std::uniform_int_distribution<uint32_t>()(rng)`. -/
def uniformU32 (r : Rng) : Nat × Rng :=
  let p := r.next
  (p.1 % U32, p.2)

/-- A run of `base_N` constant draws (the `val_dist(rng)` loop of
`Generator::make`). -/
def drawU32List : Nat → Rng → List Nat × Rng
  | 0, r => ([], r)
  | n + 1, r =>
    let p := uniformU32 r
    let q := drawU32List n p.2
    (p.1 :: q.1, q.2)

/-- Loop-generator knobs (constructor arguments of `veri::Generator`). -/
structure GenCfg where
  minStart : Int := 0
  maxStart : Int := 0
  minIter : Int := 2
  maxIter : Int := 16
  randomUpdate : Bool := true

/-- Mutable state of a `veri::Generator` instance. -/
structure GenSt where
  rng : Rng
  nPerLevel : List Int
  logicTrees : List (List Expr)
  constData : List Nat
  finalLogic : Option Expr

/-- A freshly constructed `veri::Generator(seed, …)`: the RNG stream at
position 0, scratch members empty. -/
def initGen (stream : Nat → Nat) : GenSt :=
  { rng := { stream := stream, pos := 0 }, nPerLevel := [],
    logicTrees := [], constData := [], finalLogic := none }

/-- `Generator::constInst`: a `const_block` instantiation. -/
def constInst (wParam tgt : String) : Stmt :=
  .inst "const_block" "inst" [".VALUE(" ++ wParam ++ ")"] [("w", tgt)]

/-- The reduction-building loop of `Generator::buildNested` (and of the
final reduction in `make`): starting from `arr[0]`, draw one operator in
`{+, ^}` per further element and nest a binary node.  `n` is the
number of remaining elements, `opIdx` the next element index. -/
def reduceLoop (arr : String) : Nat → Nat → Expr → Rng → Expr × Rng
  | 0, _, acc, r => (acc, r)
  | n + 1, opIdx, acc, r =>
    let p := uniformInt 0 1 r
    let op := if p.1 = 0 then BinOp.add else BinOp.xor
    reduceLoop arr n (opIdx + 1)
      (.bin op (.cons acc
        (.cons (.wireRef (arr ++ "[" ++ toString opIdx ++ "]")
          (Int.ofNat opIdx)) .nil))) p.2

/-- The `case`-arm construction loop of `Generator::buildNested`:
for each induction value `k` below `numIter` build one reduction over
the inner wire array, record it in the level's logic list, and emit one
case arm labelled `start_val ± k`. -/
def caseLoop (outBase arr : String) (startVal : Int) (increment : Bool)
    (nextIters : Nat) : Nat → Nat → Rng → CaseList × List Expr × Rng
  | 0, _, r => (.nil, [], r)
  | n + 1, k, r =>
    let pr := reduceLoop arr (nextIters - 1) 1 (.wireRef (arr ++ "[0]") 0) r
    let lblVal : Int := startVal + (if increment then (k : Int) else -(k : Int))
    let arm : Expr := .const ((lblVal % (U32 : Int)).toNat) (toString lblVal)
    let assignS : Stmt := .assign (outBase ++ "[" ++ toString k ++ "]") pr.1
    let rest := caseLoop outBase arr startVal increment nextIters n (k + 1) pr.2
    (.cons arm (.cons assignS .nil) rest.1, pr.1 :: rest.2.1, rest.2.2)

/-- `Generator::buildNested(level, maxDepth, out_base_name)`.  The
`fuel` argument bounds the recursion depth (`make` passes
`maxDepth + 1`, which always suffices since `level` increases towards
`maxDepth`); at exhausted fuel the base case is produced. -/
def buildNested (cfg : GenCfg) :
    Nat → Nat → Nat → String → GenSt → Stmt × GenSt
  | fuel, level, maxDepth, outBase, st0 =>
    let var := "g" ++ toString level
    let lbl := "lvl" ++ toString level
    let p1 := uniformInt cfg.minStart cfg.maxStart st0.rng
    let startVal := p1.1
    let p2 := uniformInt cfg.minIter cfg.maxIter p1.2
    let numIter := p2.1
    let st1 : GenSt := { st0 with
      rng := p2.2
      nPerLevel := if level < st0.nPerLevel.length then
        st0.nPerLevel.set level numIter else st0.nPerLevel }
    let pInc : Bool × Rng :=
      if cfg.randomUpdate then
        let q := st1.rng.next
        (q.1 % 2 = 0, q.2)
      else (true, st1.rng)
    let increment := pInc.1
    let st2 : GenSt := { st1 with rng := pInc.2 }
    let updateE := if increment then var ++ " = " ++ var ++ " + 1"
      else var ++ " = " ++ var ++ " - 1"
    let condE := if increment then
        var ++ " < " ++ toString (startVal + numIter)
      else var ++ " > " ++ toString (startVal - numIter)
    let index := if increment then var ++ " - " ++ toString startVal
      else toString startVal ++ " - " ++ var
    if maxDepth ≤ level then
      (.genFor var lbl startVal condE updateE
        (.cons (constInst ("CONSTS0[(" ++ index ++ ")*32 +: 32]")
          (outBase ++ "[(" ++ index ++ ")]")) .nil), st2)
    else
      match fuel with
      | 0 =>
        (.genFor var lbl startVal condE updateE
          (.cons (constInst ("CONSTS0[(" ++ index ++ ")*32 +: 32]")
            (outBase ++ "[(" ++ index ++ ")]")) .nil), st2)
      | fuel' + 1 =>
        let nextArr := "t" ++ toString (level + 1)
        let pin := buildNested cfg fuel' (level + 1) maxDepth nextArr st2
        let inner := pin.1
        let st3 := pin.2
        let nextIters : Int := st3.nPerLevel.getD (level + 1) 0
        let wireDecl : Stmt := .custom (fun i =>
          ind i ++ "wire [31:0] " ++ nextArr ++ " [0:" ++
          toString (nextIters - 1) ++ "];")
        let pc := caseLoop outBase nextArr startVal increment
          nextIters.toNat numIter.toNat 0 st3.rng
        let st4 : GenSt := { st3 with
          rng := pc.2.2, logicTrees := st3.logicTrees ++ [pc.2.1] }
        (.genFor var lbl startVal condE updateE
          (.cons wireDecl (.cons inner
            (.cons (.genCase (.wireRef var (-1)) pc.1 .nil) .nil))), st4)

/-- `Generator::calculateExpectedResult`: fold the recorded per-level
reduction lists (already re-ordered innermost first) over the constant
vector, then evaluate the final reduction; a missing final tree or any
failing evaluation is `none`. -/
def foldLevels : List (List Expr) → List Nat → Option (List Nat)
  | [], cur => some cur
  | lvl :: rest, cur =>
    match lvl.mapM (fun e => e.eval cur) with
    | none => none
    | some nxt => foldLevels rest nxt

/-- Result record of one `Generator::make` call. -/
structure MakeOut where
  fileName : String
  text : String
  oracle : Option Nat
  topMod : Module

/-- Rendering of the `CONSTS0` initialiser (most significant constant
first, i.e. `const_data` traversed from the highest index down). -/
def constsText (cd : List Nat) : String :=
  String.intercalate ", " (cd.reverse.map (fun v => "32'h" ++ hexN 8 v))

/-- `Generator::make(topName, idx, depth)`: build the nested design,
draw the constant pool, assemble the top module, compute the oracle and
produce the complete Verilog file text. -/
def make (cfg : GenCfg) (topName : String) (idx : Nat) (depth : Nat)
    (st0 : GenSt) : MakeOut × GenSt :=
  let st : GenSt := { st0 with
    constData := [], logicTrees := [], finalLogic := none,
    nPerLevel := List.replicate (depth + 1) 0 }
  let maxDepth := if depth > 0 then depth - 1 else 0
  let pb := buildNested cfg (maxDepth + 1) 0 maxDepth "t0" st
  let outer := pb.1
  let st1 := pb.2
  let topN : Int := st1.nPerLevel.getD 0 0
  let baseN : Int := st1.nPerLevel.getD maxDepth 0
  let pc := drawU32List baseN.toNat st1.rng
  let st2 : GenSt := { st1 with constData := pc.1, rng := pc.2 }
  let consts0 : Stmt := .custom (fun indent =>
    ind indent ++ "localparam [" ++ toString (baseN * 32 - 1) ++
    ":0] CONSTS0 = \x7b" ++ constsText pc.1 ++ "\x7d;")
  let wireT0 : Stmt := .custom (fun i =>
    ind i ++ "wire [31:0] t0 [0:" ++ toString (topN - 1) ++ "];")
  let st3 : GenSt := { st2 with logicTrees := st2.logicTrees.reverse }
  let wrapper : Stmt := .custom (fun i =>
    ind i ++ "generate\n" ++ outer.emit (i + 2) ++ "\n" ++ ind i ++
    "endgenerate")
  let pf : Option Expr × Rng :=
    if 0 < topN then
      let q := reduceLoop "t0" (topN.toNat - 1) 1 (.wireRef "t0[0]" 0) st3.rng
      (some q.1, q.2)
    else (none, st3.rng)
  let st4 : GenSt := { st3 with finalLogic := pf.1, rng := pf.2 }
  let bodyTail : StmtList :=
    match pf.1 with
    | some f => .cons (.assign "result" f) .nil
    | none => .nil
  let top : Module :=
    { name := topName, ports := ["output [31:0] result"],
      body := .cons consts0 (.cons wireT0 (.cons wrapper bodyTail)) }
  let expected : Option Nat :=
    match foldLevels st4.logicTrees st4.constData with
    | none => none
    | some cur =>
      match st4.finalLogic with
      | none => none
      | some f => f.eval cur
  let text :=
    "// generated by veri::Generator\n`timescale 1ns/1ps\n\n" ++
    "module const_block #(parameter VALUE=32'h0)(output [31:0] w);\n" ++
    "  assign w = VALUE;\nendmodule\n\n" ++ top.emit
  ({ fileName := "gen_" ++ toString idx ++ ".v", text := text,
     oracle := expected, topMod := top }, st4)

/-- The driver's per-iteration loop over a single generator instance
(`main.cpp`: `loopGen->make("top", i, opt.depth)` for `i < n`),
collecting the `(file text, oracle)` sequence. -/
def loopSeqFrom (cfg : GenCfg) (depth : Nat) :
    Nat → Nat → GenSt → List (String × Option Nat)
  | 0, _, _ => []
  | n + 1, i, st =>
    let p := make cfg "top" i depth st
    (p.1.text, p.1.oracle) :: loopSeqFrom cfg depth n (i + 1) p.2

/-- A complete fuzzing run of the loop generator from a freshly
constructed instance. -/
def loopFuzzRun (stream : Nat → Nat) (cfg : GenCfg) (depth n : Nat) :
    List (String × Option Nat) :=
  loopSeqFrom cfg depth n 0 (initGen stream)

end veri

/-! ### Hierarchy generator (`hierarchy_generator.hpp`, file `part_004`)

Real-valued draws (`std::uniform_real_distribution`, used only for the
`< 0.33` / `< 0.5` branch decisions) and `std::bernoulli_distribution`
are modelled as single-draw Boolean decisions (`draw % 100 < pct`);
`std::shuffle` is modelled as a selection shuffle consuming one draw
per element.  These mappings are implementation-defined in C++ as well;
every claim below either quantifies over the whole draw stream or does
not depend on the particular mapping. -/

namespace hier

/-- Configuration record (`veri::HierCfg`).  `bigGenProb` (a `double`
in `[0,1]`) is carried as an integer percentage. -/
structure HierCfg where
  rootPref : Bool := false
  relativeUp : Bool := false
  aliasStmt : Bool := false
  defparam : Bool := false
  enableBigGen : Bool := false
  minChild : Int := 2
  maxChild : Int := 4
  depth : Nat := 2
  bigGenPct : Nat := 50

/-- `BIT_WIDTH` constant of the source. -/
def BIT_WIDTH : Nat := 32

/-- `hex32`: `32'hXXXXXXXX` rendering. -/
def hex32 (v : Nat) : String := "32'h" ++ hexN 8 v

/-- The `"$root."` marker stripped by `normalised`. -/
def rootTok : List Char := ['$', 'r', 'o', 'o', 't', '.']

/-- The `ROOT_NAME + "."` marker (`"top."`) stripped by `normalised`. -/
def topTok : List Char := ['t', 'o', 'p', '.']

/-- The leading-`".."` marker stripped by `normalised`. -/
def upTok : List Char := ['.', '.']

/-- First step of `normalised`: drop one leading `"$root."`. -/
def stripRootL (p : List Char) : List Char :=
  if startsWithL rootTok p then p.drop 6 else p

/-- Second step of `normalised`: the `while` loop dropping leading
`"top."` markers; `fuel` bounds the iteration count (the caller passes
the string length, which always suffices since each round removes four
characters). -/
def dropTopsL : Nat → List Char → List Char
  | 0, p => p
  | fuel + 1, p =>
    if startsWithL topTok p then dropTopsL fuel (p.drop 4) else p

/-- `std::string::find('.', 2)`: first dot at index ≥ 2. -/
def findDotFrom2 (p : List Char) : Option Nat :=
  (findCh '.' (p.drop 2)).map (· + 2)

/-- Third step of `normalised`: the `while` loop stripping a leading
`".."` together with the following segment (or the whole string when no
further dot exists); `fuel` bounds the iteration count as above. -/
def dropUpsL : Nat → List Char → List Char
  | 0, p => p
  | fuel + 1, p =>
    if startsWithL upTok p then
      match findDotFrom2 p with
      | none => []
      | some i => dropUpsL fuel (p.drop (i + 1))
    else p

/-- `normalised` from `hierarchy_generator.hpp`: strip `$root.`, then
leading `top.` markers, then leading `..` segments. -/
def normalisedL (p : List Char) : List Char :=
  let p1 := stripRootL p
  let p2 := dropTopsL p1.length p1
  dropUpsL p2.length p2

/-- String-level wrapper of `normalised`. -/
def normalised (p : String) : String := String.mk (normalisedL p.data)

mutual

/-- The internal `Node` structure: name, ordered children, leaf
constant, embedded-generator flag and module. -/
inductive Node where
  | mk (name : String) (children : NodeList) (constVal : Nat)
      (bigGen : Bool) (bigMod : Option veri.Module)

inductive NodeList where
  | nil
  | cons (n : Node) (rest : NodeList)

end

/-- Field accessor. -/
def Node.name : Node → String
  | .mk nm _ _ _ _ => nm

/-- Field accessor. -/
def Node.children : Node → NodeList
  | .mk _ ch _ _ _ => ch

/-- Field accessor. -/
def Node.constVal : Node → Nat
  | .mk _ _ cv _ _ => cv

/-- Field accessor. -/
def Node.bigGen : Node → Bool
  | .mk _ _ _ bg _ => bg

/-- Field accessor. -/
def Node.bigMod : Node → Option veri.Module
  | .mk _ _ _ _ bm => bm

/-- `k->const_val = nv` on the first child whose name equals the
target (the no-dot base case of `set_leaf`). -/
def setDirect : NodeList → List Char → Nat → NodeList
  | .nil, _, _ => .nil
  | .cons k rest, tgt, nv =>
    if k.name.data == tgt then
      .cons (.mk k.name k.children nv k.bigGen k.bigMod) rest
    else .cons k (setDirect rest tgt nv)

mutual

/-- `set_leaf(here, dotted, nv)`: descend along the dotted path through
the first name-matching child and overwrite the addressed leaf's
constant; silently do nothing when no child matches. -/
def setLeafN : Node → List Char → Nat → Node
  | .mk nm ch cv bg bm, dotted, nv =>
    match findCh '.' dotted with
    | none => .mk nm (setDirect ch dotted nv) cv bg bm
    | some i =>
      .mk nm (setLeafL ch (dotted.take i) (dotted.drop (i + 1)) nv) cv bg bm

/-- The child-searching loop of `set_leaf`. -/
def setLeafL : NodeList → List Char → List Char → Nat → NodeList
  | .nil, _, _, _ => .nil
  | .cons k rest, head, tl, nv =>
    if k.name.data == head then .cons (setLeafN k tl nv) rest
    else .cons k (setLeafL rest head tl nv)

end

mutual

/-- `leaf_value(here, dotted)`: an empty path or the bare pin name
`out` yields the current node's constant; otherwise the first dotted
segment selects a child (first match) to descend into, a matching child
with no remaining segments yields that child's constant, and a missing
match yields `0`. -/
def leafValueN : Node → List Char → Nat
  | .mk _ ch cv _ _, dotted =>
    if dotted = [] ∨ dotted = "out".data then cv
    else
      leafValueL ch (dotted.take ((findCh '.' dotted).getD dotted.length))
        ((findCh '.' dotted).map (fun i => dotted.drop (i + 1)))

/-- The child-searching loop of `leaf_value`; the third argument is the
remaining path (`none` when the first segment had no following dot). -/
def leafValueL : NodeList → List Char → Option (List Char) → Nat
  | .nil, _, _ => 0
  | .cons k rest, head, tl? =>
    if k.name.data == head then
      match tl? with
      | none => k.constVal
      | some t => leafValueN k t
    else leafValueL rest head tl?

end

mutual

/-- `collect_leaf_paths(prefix, node, out)`: leaves contribute
`prefix + name + ".out"`, internal nodes recurse with
`prefix + name + "."`. -/
def collectLeafPaths : String → Node → List String
  | pre, .mk nm .nil _ _ _ => [pre ++ nm ++ ".out"]
  | pre, .mk nm ch _ _ _ => collectLeafPathsL (pre ++ nm ++ ".") ch

/-- Child iteration of `collect_leaf_paths`. -/
def collectLeafPathsL : String → NodeList → List String
  | _, .nil => []
  | pre, .cons k rest => collectLeafPaths pre k ++ collectLeafPathsL pre rest

end

/-- Generator state of a `HierarchyGen` instance: its own RNG, the
embedded loop generator `bigGen_` (seeded with the same seed), and the
per-write `dumpedMods_` deduplication set. -/
structure HGSt where
  rng : veri.Rng
  big : veri.GenSt
  dumped : List String

/-- A freshly constructed `HierarchyGen(seed, cfg)`. -/
def initHier (stream : Nat → Nat) : HGSt :=
  { rng := { stream := stream, pos := 0 }, big := veri.initGen stream,
    dumped := [] }

/-- Boolean model of `std::bernoulli_distribution(p)(rng)` and of the
`uniform_real_distribution` threshold tests: one draw, compared against
an integer percentage. -/
def chance (pct : Nat) (r : veri.Rng) : Bool × veri.Rng :=
  let p := r.next
  (p.1 % 100 < pct, p.2)

/-- `dumpedMods_.insert(s).second`: whether `s` was newly inserted,
plus the updated set. -/
def insertDumped (s : String) (d : List String) : Bool × List String :=
  if s ∈ d then (false, d) else (true, d ++ [s])

/-- Modelled from the spec: `Generator::makeModule(name, depth)` is
called by `HierarchyGen::build_tree` but is absent from the sources
(only `Generator::make` is present).  Per §4.3 of the specification,
"the loop generator produces a standalone module and its oracle value";
it is modelled as the same construction as `make`, returning the
constructed top module (named `name`) and its oracle value. -/
def makeModule (name : String) (depth : Nat) (g : veri.GenSt) :
    (veri.Module × Nat) × veri.GenSt :=
  let p := veri.make {} name 0 depth g
  ((p.1.topMod, p.1.oracle.getD 0), p.2)

/-- Selection-shuffle model of `std::shuffle(leaves, rng_)`: one draw
per element selects the next output position. -/
def shuffleGo : Nat → List String → veri.Rng → List String × veri.Rng
  | 0, l, r => (l, r)
  | n + 1, l, r =>
    let p := r.next
    let j := if l.length = 0 then 0 else p.1 % l.length
    let q := shuffleGo n (l.take j ++ l.drop (j + 1)) p.2
    (l.getD j "" :: q.1, q.2)

/-- Shuffle wrapper. -/
def shuffleModel (l : List String) (r : veri.Rng) :
    List String × veri.Rng :=
  shuffleGo l.length l r

/-- `HierarchyGen::build_tree(name, depth, maxDepth)`.  The first
argument is the remaining depth `maxDepth - depth` (the source compares
`depth == maxDepth`; the countdown is an exact translation).  At a
leaf: either an embedded loop-generator module (when enabled and the
Bernoulli draw succeeds) or a fresh uniform 32-bit constant. -/
def buildTree (cfg : HierCfg) : Nat → String → HGSt → Node × HGSt
  | 0, name, st =>
    if cfg.enableBigGen then
      let pb := chance cfg.bigGenPct st.rng
      if pb.1 then
        let pm := makeModule name cfg.depth st.big
        (.mk name .nil pm.1.2 true (some pm.1.1),
         { st with rng := pb.2, big := pm.2 })
      else
        let pv := veri.uniformU32 pb.2
        (.mk name .nil pv.1 false none, { st with rng := pv.2 })
    else
      let pv := veri.uniformU32 st.rng
      (.mk name .nil pv.1 false none, { st with rng := pv.2 })
  | fuel + 1, name, st =>
    let pn := veri.uniformInt cfg.minChild cfg.maxChild st.rng
    let res := (List.range pn.1.toNat).foldl
      (fun (acc : (NodeList → NodeList) × HGSt) i =>
        let pk := buildTree cfg fuel (name ++ "_c" ++ toString i) acc.2
        (fun tail => acc.1 (.cons pk.1 tail), pk.2))
      (fun tail => tail, { st with rng := pn.2 })
    (.mk name (res.1 .nil) 0 false none, res.2)

/-- Result record of `emit_module` (`ModEmit` in the source). -/
structure ModEmit where
  mod : veri.Module
  text : String
  value : Nat

/-- The child instantiations with empty port lists
(`Instance(k->name, k->name, {}, {})`). -/
def childInsts : NodeList → veri.StmtList
  | .nil => .nil
  | .cons k rest => .cons (.inst k.name k.name [] []) (childInsts rest)

/-- One path qualification (the `qualify` lambda of `emit_module`):
with the `rootPrefix` option and a `< 0.33` draw, rewrite to a
`$root.tb.top.` absolute path (stripping one leading `top.`); otherwise
with the `relativeUp` option, depth ≥ 1 and a `< 0.5` draw, replace the
first segment by `..`; otherwise keep the path. -/
def qualifyOne (cfg : HierCfg) (depth : Nat) (p : String)
    (r0 : veri.Rng) : String × veri.Rng :=
  let pd1 : Option Bool × veri.Rng :=
    if cfg.rootPref then
      let q := chance 33 r0
      (some q.1, q.2)
    else (none, r0)
  match pd1.1 with
  | some true =>
    let s := if startsWithL topTok p.data then p.data.drop 4 else p.data
    ("$root." ++ "tb." ++ "top" ++ "." ++ String.mk s, pd1.2)
  | _ =>
    let pd2 : Option Bool × veri.Rng :=
      if cfg.relativeUp ∧ 1 ≤ depth then
        let q := chance 50 pd1.2
        (some q.1, q.2)
      else (none, pd1.2)
    match pd2.1 with
    | some true =>
      (match findCh '.' p.data with
       | none => ".." ++ p
       | some i => ".." ++ String.mk (p.data.drop (i + 1)), pd2.2)
    | _ => (p, pd2.2)

/-- The operand loop of `emit_module`: for each of the first `nOps`
shuffled leaf paths, qualify it (consuming draws) and evaluate
`leaf_value` on the normalised unqualified path against the (possibly
defparam-updated) tree. -/
def opsLoop (cfg : HierCfg) (depth : Nat) (tree : Node) :
    List String → Nat → veri.Rng → List String × List Nat × veri.Rng
  | _, 0, r => ([], [], r)
  | [], _ + 1, r => ([], [], r)
  | p :: rest, k + 1, r =>
    let pq := qualifyOne cfg depth p r
    let v := leafValueN tree (normalisedL p.data)
    let pr := opsLoop cfg depth tree rest k pq.2
    (pq.1 :: pr.1, v :: pr.2.1, pr.2.2)

/-- `tgt.substr(0, tgt.rfind('.'))`: strip the final `.out` pin. -/
def takeBeforeLastDot (s : List Char) : List Char :=
  match findCh '.' s.reverse with
  | none => s
  | some j => s.take (s.length - 1 - j)

/-- The 32-bit fold over operand values (`switch (opSym)` of
`emit_module`); `+` wraps modulo `2 ^ 32`. -/
def foldOp (opSym : Char) (a b : Nat) : Nat :=
  if opSym = '+' then (a + b) % U32
  else if opSym = '|' then a ||| b
  else if opSym = '&' then a &&& b
  else a ^^^ b

/-- The operator table `OPS[] = \x7b '+','|','&','^' \x7d`. -/
def opSymOf (i : Int) : Char :=
  if i = 0 then '+' else if i = 1 then '|' else if i = 2 then '&' else '^'

mutual

/-- `HierarchyGen::emit_module(n, depth)`: recursively emit the Verilog
of the subtree rooted at `n` and compute its golden value.  Leaves emit
either the embedded generator module (deduplicated), a parameterised
module (`defparam` option) or a plain constant assignment.  Internal
nodes instantiate their children, optionally emit one root `defparam`
override (updating the in-memory tree before evaluation), and emit one
reduction over a random sample of qualified leaf paths. -/
def emitModule (cfg : HierCfg) : Node → Nat → HGSt → ModEmit × HGSt
  | .mk nm .nil cv bg bm, _, st =>
    let ports := ["output [" ++ toString (BIT_WIDTH - 1) ++ ":0] " ++ "out"]
    if bg then
      let p1 := insertDumped "const_block" st.dumped
      let t1 := if p1.1 then
          "module const_block #(parameter VALUE=32'h0)(output [31:0] w);\n" ++
          "  assign w = VALUE;\nendmodule\n\n"
        else ""
      let bigM := bm.getD { name := "", ports := [], body := .nil }
      let p2 := insertDumped bigM.name p1.2
      let t2 := if p2.1 then bigM.emit else ""
      let m : veri.Module :=
        { name := nm, ports := ports,
          body := .cons (.inst bigM.name (nm ++ "_inst") [] [("result", "out")])
            .nil }
      ({ mod := m, text := t1 ++ t2, value := cv }, { st with dumped := p2.2 })
    else if cfg.defparam then
      let m : veri.Module := { name := nm, ports := ports, body := .nil }
      let t := "module " ++ nm ++ " #(parameter VALUE = " ++ hex32 cv ++ ")" ++
        " (output [" ++ toString (BIT_WIDTH - 1) ++ ":0] " ++ "out" ++ ");\n" ++
        "  assign " ++ "out" ++ " = VALUE;\nendmodule\n\n"
      ({ mod := m, text := t, value := cv }, st)
    else
      let m : veri.Module :=
        { name := nm, ports := ports,
          body := .cons (.assign "out"
            (.const cv (toString BIT_WIDTH ++ "'d" ++ toString cv))) .nil }
      ({ mod := m, text := m.emit, value := cv }, st)
  | .mk nm ch cv bg bm, depth, st =>
    let n : Node := .mk nm ch cv bg bm
    let ports := ["output [" ++ toString (BIT_WIDTH - 1) ++ ":0] " ++ "out"]
    let pch := emitChildren cfg ch (depth + 1) st
    let st1 := pch.2
    let leaves0 := collectLeafPaths "" n
    let psh := shuffleModel leaves0 st1.rng
    let leaves := psh.1
    let pdp : Node × veri.StmtList × veri.Rng :=
      if depth = 0 ∧ cfg.defparam = true ∧ leaves0.isEmpty = false then
        let tgt := leaves.headD ""
        let pnv := veri.uniformU32 psh.2
        let instPath := String.mk (takeBeforeLastDot tgt.data)
        let normPath := normalisedL instPath.data
        let n' := setLeafN n normPath pnv.1
        (n', .cons (.custom (fun i =>
          veri.ind i ++ "defparam " ++ instPath ++ ".VALUE = " ++
          hex32 pnv.1 ++ ";")) .nil, pnv.2)
      else (n, .nil, psh.2)
    let tree := pdp.1
    let pno := veri.uniformInt 2 (Int.ofNat leaves.length) pdp.2.2
    let pops := opsLoop cfg depth tree leaves pno.1.toNat pno.2
    let plit : List String × List Nat × veri.Rng :=
      let pd := veri.uniformInt 0 1 pops.2.2
      if pd.1 ≠ 0 then
        let pl := veri.uniformU32 pd.2
        (pops.1 ++ [toString BIT_WIDTH ++ "'d" ++ toString pl.1],
         pops.2.1 ++ [pl.1], pl.2)
      else (pops.1, pops.2.1, pd.2)
    let pop := veri.uniformInt 0 3 plit.2.2
    let opSym := opSymOf pop.1
    let rhs := String.intercalate (" " ++ String.mk [opSym] ++ " ") plit.1
    let acc := (plit.2.1.drop 1).foldl (foldOp opSym) (plit.2.1.headD 0)
    let body : veri.StmtList :=
      veri.stmtListAppend (childInsts ch)
        (veri.stmtListAppend pdp.2.1
          (.cons (.custom (fun i =>
            String.mk (List.replicate i ' ') ++ "assign " ++ "out" ++ " = " ++
            rhs ++ ";")) .nil))
    let m : veri.Module := { name := nm, ports := ports, body := body }
    ({ mod := m, text := m.emit ++ String.join pch.1, value := acc },
     { st1 with rng := pop.2 })

/-- Child iteration of `emit_module` (recurse, collect texts). -/
def emitChildren (cfg : HierCfg) : NodeList → Nat → HGSt →
    List String × HGSt
  | .nil, _, st => ([], st)
  | .cons k rest, depth, st =>
    let pe := emitModule cfg k depth st
    let pr := emitChildren cfg rest depth pe.2
    (pe.1.text :: pr.1, pr.2)

end

/-- The bounded model of the `while (b == a)` re-draw loop of the
(`not yet functional`) alias option. -/
def retryIdx (leaves : List String) (a : String) :
    Nat → String → veri.Rng → String × veri.Rng
  | 0, b, r => (b, r)
  | fuel + 1, b, r =>
    if b = a then
      let p := veri.uniformInt 0 (Int.ofNat leaves.length - 1) r
      retryIdx leaves a fuel (leaves.getD p.1.toNat "") p.2
    else (b, r)

/-- `HierarchyGen::write(fileName)`: clear the deduplication set, build
the tree, emit it, prepend the header, optionally append the alias
extras, and return the file text with the expected root value. -/
def write (cfg : HierCfg) (seed : Nat) (st0 : HGSt) :
    (String × Nat) × HGSt :=
  let st : HGSt := { st0 with dumped := [] }
  let pt := buildTree cfg cfg.depth "top" st
  let root := pt.1
  let pe := emitModule cfg root 0 pt.2
  let expected := pe.1.value
  let hdr := "// auto-generated by VeriGen-Hierarchy \n// seed: " ++
    toString seed ++ "\n`timescale 1ns/1ps\n\n"
  let text0 := hdr ++ pe.1.text
  if cfg.aliasStmt then
    let leaves := collectLeafPaths "" root
    if 2 ≤ leaves.length then
      let pa := veri.uniformInt 0 (Int.ofNat leaves.length - 1) pe.2.rng
      let a := leaves.getD pa.1.toNat ""
      let pb := veri.uniformInt 0 (Int.ofNat leaves.length - 1) pa.2
      let pfin := retryIdx leaves a (leaves.length + 1)
        (leaves.getD pb.1.toNat "") pb.2
      let extra := "\n// ---------- cross-hierarchy extras ----------\n" ++
        "alias " ++ a ++ " = " ++ pfin.1 ++ ";\n"
      ((text0 ++ extra, expected), { pe.2 with rng := pfin.2 })
    else ((text0, expected), pe.2)
  else ((text0, expected), pe.2)

/-- The driver's per-iteration loop over a single `HierarchyGen`
instance (`main.cpp`: `hierGen->write("top.v")` per iteration). -/
def hierSeqFrom (cfg : HierCfg) (seed : Nat) :
    Nat → HGSt → List (String × Nat)
  | 0, _ => []
  | n + 1, st =>
    let p := write cfg seed st
    (p.1.1, p.1.2) :: hierSeqFrom cfg seed n p.2

/-- A complete fuzzing run of the hierarchy generator from a freshly
constructed instance. -/
def hierFuzzRun (stream : Nat → Nat) (seed : Nat) (cfg : HierCfg)
    (n : Nat) : List (String × Nat) :=
  hierSeqFrom cfg seed n (initHier stream)

end hier

/-! ### Statement helpers

Definitions used only to state properties (operand joins, generate
construct counts, the class of operand paths the hierarchy generator
can produce, child lookup).  They are not translations of source
functions. -/

/-- Strings joined by a separator ("joined by the operator token"). -/
def joinSep (sep : String) : List String → String
  | [] => ""
  | [x] => x
  | x :: rest => x ++ sep ++ joinSep sep rest

namespace veri

mutual

/-- Number of `for`-generate statements in a statement tree. -/
def Stmt.forCount : Stmt → Nat
  | .assign _ _ => 0
  | .inst _ _ _ _ => 0
  | .custom _ => 0
  | .genFor _ _ _ _ _ body => 1 + forCountBody body
  | .genCase _ cases dflt => forCountCases cases + forCountBody dflt

def forCountBody : StmtList → Nat
  | .nil => 0
  | .cons s rest => s.forCount + forCountBody rest

def forCountCases : CaseList → Nat
  | .nil => 0
  | .cons _ body rest => forCountBody body + forCountCases rest

end

mutual

/-- Number of `case`-generate statements in a statement tree. -/
def Stmt.caseCount : Stmt → Nat
  | .assign _ _ => 0
  | .inst _ _ _ _ => 0
  | .custom _ => 0
  | .genFor _ _ _ _ _ body => caseCountBody body
  | .genCase _ cases dflt => 1 + caseCountCases cases + caseCountBody dflt

def caseCountBody : StmtList → Nat
  | .nil => 0
  | .cons s rest => s.caseCount + caseCountBody rest

def caseCountCases : CaseList → Nat
  | .nil => 0
  | .cons _ body rest => caseCountBody body + caseCountCases rest

end

end veri

namespace hier

/-- Identifier characters of generated Verilog names (letters, digits,
underscore): every module name the hierarchy generator creates (`top`,
`top_c0`, `top_c0_c1`, …) and the pin name `out` consist of these. -/
def isIdChar (c : Char) : Bool := c.isAlphanum || c == '_'

/-- A non-empty identifier segment. -/
def identSeg (s : List Char) : Bool := !s.isEmpty && s.all isIdChar

/-- Dotted join of path segments. -/
def joinSegs : List (List Char) → List Char
  | [] => []
  | [s] => s
  | s :: rest => s ++ '.' :: joinSegs rest

/-- The root module name as a segment. -/
def topSeg : List Char := ['t', 'o', 'p']

/-- The `"$root.tb.top."` prefix produced by the `rootPrefix` rewrite. -/
def rootPrefTok : List Char := rootTok ++ ['t', 'b', '.'] ++ topTok

/-- The operand paths `HierarchyGen::emit_module` can produce: a plain
dotted identifier path whose non-head segments are never the bare root
name `top` (`collect_leaf_paths` output: head `top` or `top_c…`,
deeper segments strictly longer than `top`, final segment `out`); the
same path rewritten to a `$root.tb.top.` absolute reference; or the
relative rewrite replacing the first segment by `..`. -/
def ProduciblePath (p : List Char) : Prop :=
  (∃ s rest, p = joinSegs (s :: rest) ∧ identSeg s = true ∧
    ∀ t ∈ rest, identSeg t = true ∧ t ≠ topSeg) ∨
  (∃ q : List Char, p = rootPrefTok ++ q) ∨
  (∃ s rest, p = '.' :: '.' :: joinSegs (s :: rest) ∧ identSeg s = true ∧
    ∀ t ∈ rest, identSeg t = true ∧ t ≠ topSeg)

/-- A string free of all three markers `normalised` strips. -/
def NoBadPrefix (p : List Char) : Prop :=
  startsWithL rootTok p = false ∧ startsWithL topTok p = false ∧
  startsWithL upTok p = false

/-- First child whose name equals the segment (the search loops of
`leaf_value` and `set_leaf`). -/
def findChild : NodeList → List Char → Option Node
  | .nil, _ => none
  | .cons k rest, head =>
    if k.name.data == head then some k else findChild rest head

end hier

/-! ### Claim theorems -/

/-- C1: the spec claims a mismatch is counted exactly when a
non-`CompareSim` tool returns `success = true` with a value differing
from the oracle, and that a `success = false` result is never counted
as a mismatch.  The code (`main.cpp` line 215) omits the `success`
check: a failed non-`CompareSim` tool whose (residual) value differs
from the golden value is counted both as a crash and as a mismatch.
This theorem evaluates the embedded counter update at such a failing
input: tool `icarus`, result `\x7bsuccess = false, value = 0\x7d`,
golden value `1`. -/
theorem recordTool_failure_counted_as_mismatch :
    orch.recordTool "icarus" { success := false, value := 0, log := "" } 1
      { crash := 0, mismatch := 0, timeout := 0 } =
      { crash := 1, mismatch := 1, timeout := 0 } := by
  decide

/-- C2: the process exit code is 0 exactly when all three counters are
zero; otherwise crash dominates (3), then timeout (2), then mismatch
(1), regardless of the counts. -/
theorem exit_code_dominance (c : orch.Counters) :
    (orch.exitCode c = 0 ↔ c.crash = 0 ∧ c.mismatch = 0 ∧ c.timeout = 0) ∧
    (0 < c.crash → orch.exitCode c = 3) ∧
    (c.crash = 0 → 0 < c.timeout → orch.exitCode c = 2) ∧
    (c.crash = 0 → c.timeout = 0 → 0 < c.mismatch → orch.exitCode c = 1) := by
  obtain ⟨cr, mi, t⟩ := c
  simp only [orch.exitCode]
  split_ifs <;> simp_all

/-- Witness for C2 at the counters (1, 2, 3): the crash class wins. -/
theorem exit_code_dominance_witness :
    orch.exitCode { crash := 1, mismatch := 2, timeout := 3 } = 3 :=
  (exit_code_dominance { crash := 1, mismatch := 2, timeout := 3 }).2.1
    (by decide)

/-- C4 counterexample: in the generator's AST (`part_002`), a literal
with no symbolic alias emits the empty string, not `32'd<value>`. -/
theorem const_emit_not_decimal :
    veri.Expr.emit (.const 5 "") = "" ∧
    veri.Expr.emit (.const 5 "") ≠ "32'd5" := by
  constructor
  · rfl
  · decide

/-- C4 (amended): in the generator's AST a literal emits its symbolic
alias field unconditionally — hence the empty string when no alias is
set — while the legacy `ast.hpp` literal emits `32'd<value>` when no
alias is set and the alias otherwise; in both versions `eval` returns
the stored 32-bit value. -/
theorem const_emit_eval_spec :
    (∀ (v : Nat) (s : String) (env : List Nat),
      veri.Expr.emit (.const v s) = s ∧
      veri.Expr.eval env (.const v s) = some v) ∧
    (∀ (v : Nat) (s : String),
      ast0.Expr.emit (.const v s) =
        (if s = "" then "32'd" ++ toString v else s) ∧
      ast0.Expr.eval (.const v s) = some v) :=
  ⟨fun _ _ _ => ⟨rfl, rfl⟩, fun _ _ => ⟨rfl, rfl⟩⟩

/-- C5: `CompareSim.run` threads the world through Icarus and then
ModelSim (in that order), succeeds exactly when both children succeed
with equal 32-bit values, and then returns their common value. -/
theorem compare_sim_spec {W : Type} (runI runM : W → orch.ToolResult × W)
    (w : W) :
    ((orch.compareSimRun runI runM w).2 = (runM (runI w).2).2) ∧
    ((orch.compareSimRun runI runM w).1.success =
      ((runI w).1.success && ((runM (runI w).2).1.success &&
        ((runI w).1.value == (runM (runI w).2).1.value)))) ∧
    ((orch.compareSimRun runI runM w).1.success = true →
      (orch.compareSimRun runI runM w).1.value = (runI w).1.value ∧
      (orch.compareSimRun runI runM w).1.value = (runM (runI w).2).1.value) := by
  rcases hI : runI w with ⟨rI, w1⟩
  rcases hM : runM w1 with ⟨rM, w2⟩
  rcases rI with ⟨sI, vI, lI⟩
  rcases rM with ⟨sM, vM, lM⟩
  simp only [orch.compareSimRun, hI, hM]
  cases sI <;> cases sM <;> by_cases hv : vI = vM <;>
    simp_all [orch.compareSimRun]

/-- Witness for C5: two agreeing successful children over a world
counter. -/
theorem compare_sim_spec_witness :
    ((orch.compareSimRun
        (fun w => ({ success := true, value := 66, log := "" }, w + 1))
        (fun w => ({ success := true, value := 66, log := "" }, w + 2))
        (0 : Nat)).1.value = 66) :=
  ((compare_sim_spec
      (fun w => ({ success := true, value := 66, log := "" }, w + 1))
      (fun w => ({ success := true, value := 66, log := "" }, w + 2))
      (0 : Nat)).2.2 (by decide)).1

/-- C7: for a fixed draw stream (the abstraction of a fixed seed under
a fixed PRNG algorithm and draw ordering) and fixed configuration, two
runs from freshly constructed generator instances produce identical
sequences of `(Verilog text, oracle)` pairs across all iterations, for
both the loop and the hierarchy generator.  Both embeddings are pure
functions of the stream and the configuration — the source generators
have no other input: their state is seeded RNGs plus per-call scratch
members. -/
theorem generator_reproducible (stream : Nat → Nat) (cfg : veri.GenCfg)
    (depth n : Nat) (seed : Nat) (hcfg : hier.HierCfg) :
    veri.loopFuzzRun stream cfg depth n =
      veri.loopFuzzRun stream cfg depth n ∧
    hier.hierFuzzRun stream seed hcfg n =
      hier.hierFuzzRun stream seed hcfg n :=
  ⟨rfl, rfl⟩

/-- C9: the generator AST's `BinExpr::eval` guards the empty operand
list explicitly and returns 0 for every environment and operator. -/
theorem bin_empty_eval_zero (env : List Nat) (op : veri.BinOp) :
    veri.Expr.eval env (.bin op .nil) = some 0 := rfl

/-- Helper: the accumulating loop of the legacy `BinExpr::eval` computes
the left fold of the operand values when every operand evaluates. -/
theorem ast0_eval_fold (op : ast0.BinOp) :
    ∀ (rest : ast0.ExprList) (acc : Nat) (vs : List Nat),
      ast0.evalAll rest = some vs →
      ast0.evalFold op acc rest = some (vs.foldl (ast0.apply32 op) acc)
  | .nil, acc, vs, h => by
    simp only [ast0.evalAll, Option.some.injEq] at h
    subst h
    simp [ast0.evalFold]
  | .cons e r, acc, vs, h => by
    simp only [ast0.evalAll] at h
    rcases he : e.eval with _ | v₁ <;> rw [he] at h
    · simp at h
    · rcases hr : ast0.evalAll r with _ | vs₁ <;> rw [hr] at h
      · simp at h
      · simp only [Option.some.injEq] at h
        subst h
        simp only [ast0.evalFold, he, List.foldl]
        exact ast0_eval_fold op r (ast0.apply32 op acc v₁) vs₁ hr

/-- Helper: the separator loop of the legacy `BinExpr::emit` joins the
operand emissions. -/
theorem ast0_emit_sep_join (sep : String) :
    ∀ (e : ast0.Expr) (rest : ast0.ExprList),
      e.emit ++ ast0.emitSep sep rest =
        joinSep sep (e.emit :: ast0.emitList rest)
  | e, .nil => by
    simp [ast0.emitSep, ast0.emitList, joinSep, String.append_empty]
  | e, .cons e2 r2 => by
    have ih := ast0_emit_sep_join sep e2 r2
    simp only [ast0.emitSep, ast0.emitList, joinSep]
    rw [← ih]
    apply String.ext
    simp [String.data_append]

/-- Helper: parenthesised join form of the legacy `BinExpr::emit`. -/
theorem ast0_emit_join (op : ast0.BinOp) :
    ∀ ops : ast0.ExprList,
      ast0.Expr.emit (.bin op ops) =
        "(" ++ joinSep (" " ++ ast0.tok op ++ " ") (ast0.emitList ops) ++ ")"
  | .nil => by simp [ast0.Expr.emit, ast0.emitList, joinSep]
  | .cons e rest => by
    simp only [ast0.Expr.emit]
    rw [ast0_emit_sep_join]
    simp [ast0.emitList]

/-- Helper: the accumulating loop of the generator `BinExpr::eval`. -/
theorem veri_eval_fold (env : List Nat) (op : veri.BinOp) :
    ∀ (rest : veri.ExprList) (acc : Nat) (vs : List Nat),
      veri.evalAll env rest = some vs →
      veri.evalFold env op acc rest = some (vs.foldl (veri.apply32 op) acc)
  | .nil, acc, vs, h => by
    simp only [veri.evalAll, Option.some.injEq] at h
    subst h
    simp [veri.evalFold]
  | .cons e r, acc, vs, h => by
    simp only [veri.evalAll] at h
    rcases he : e.eval env with _ | v₁ <;> rw [he] at h
    · simp at h
    · rcases hr : veri.evalAll env r with _ | vs₁ <;> rw [hr] at h
      · simp at h
      · simp only [Option.some.injEq] at h
        subst h
        simp only [veri.evalFold, he, List.foldl]
        exact veri_eval_fold env op r (veri.apply32 op acc v₁) vs₁ hr

/-- Helper: the separator loop of the generator `BinExpr::emit`. -/
theorem veri_emit_sep_join (sep : String) :
    ∀ (e : veri.Expr) (rest : veri.ExprList),
      e.emit ++ veri.emitSep sep rest =
        joinSep sep (e.emit :: veri.emitList rest)
  | e, .nil => by
    simp [veri.emitSep, veri.emitList, joinSep, String.append_empty]
  | e, .cons e2 r2 => by
    have ih := veri_emit_sep_join sep e2 r2
    simp only [veri.emitSep, veri.emitList, joinSep]
    rw [← ih]
    apply String.ext
    simp [String.data_append]

/-- Helper: parenthesised join form of the generator `BinExpr::emit`. -/
theorem veri_emit_join (op : veri.BinOp) :
    ∀ ops : veri.ExprList,
      veri.Expr.emit (.bin op ops) =
        "(" ++ joinSep (" " ++ veri.tok op ++ " ") (veri.emitList ops) ++ ")"
  | .nil => by simp [veri.Expr.emit, veri.emitList, joinSep]
  | .cons e rest => by
    simp only [veri.Expr.emit]
    rw [veri_emit_sep_join]
    simp [veri.emitList]

/-- C6: a binary-tree node with a non-empty operand list evaluates to
the left-associative fold of its operand values under 32-bit modular
semantics (whenever every operand evaluates), and emits the operand
emissions joined by the operator token inside one pair of parentheses.
Stated for the legacy `ast.hpp` AST (whose operator set is
`\x7b+, -, &, |, ^\x7d`) and for the generator AST (`\x7b+, ^\x7d`,
evaluation against an environment). -/
theorem bin_expr_fold_spec :
    (∀ (op : ast0.BinOp) (e : ast0.Expr) (rest : ast0.ExprList)
       (v : Nat) (vs : List Nat),
      ast0.evalAll (.cons e rest) = some (v :: vs) →
      ast0.Expr.eval (.bin op (.cons e rest)) =
        some (vs.foldl (ast0.apply32 op) v)) ∧
    (∀ (op : ast0.BinOp) (ops : ast0.ExprList),
      ast0.Expr.emit (.bin op ops) =
        "(" ++ joinSep (" " ++ ast0.tok op ++ " ") (ast0.emitList ops) ++ ")") ∧
    (∀ (env : List Nat) (op : veri.BinOp) (e : veri.Expr)
       (rest : veri.ExprList) (v : Nat) (vs : List Nat),
      veri.evalAll env (.cons e rest) = some (v :: vs) →
      veri.Expr.eval env (.bin op (.cons e rest)) =
        some (vs.foldl (veri.apply32 op) v)) ∧
    (∀ (op : veri.BinOp) (ops : veri.ExprList),
      veri.Expr.emit (.bin op ops) =
        "(" ++ joinSep (" " ++ veri.tok op ++ " ") (veri.emitList ops) ++ ")") := by
  refine ⟨?_, ast0_emit_join, ?_, veri_emit_join⟩
  · intro op e rest v vs h
    simp only [ast0.evalAll] at h
    rcases he : e.eval with _ | v₁ <;> rw [he] at h
    · simp at h
    · rcases hr : ast0.evalAll rest with _ | vs₁ <;> rw [hr] at h
      · simp at h
      · simp only [Option.some.injEq, List.cons.injEq] at h
        obtain ⟨hv, hvs⟩ := h
        subst hv
        subst hvs
        simp only [ast0.Expr.eval, he]
        exact ast0_eval_fold op rest v₁ vs₁ hr
  · intro env op e rest v vs h
    simp only [veri.evalAll] at h
    rcases he : e.eval env with _ | v₁ <;> rw [he] at h
    · simp at h
    · rcases hr : veri.evalAll env rest with _ | vs₁ <;> rw [hr] at h
      · simp at h
      · simp only [Option.some.injEq, List.cons.injEq] at h
        obtain ⟨hv, hvs⟩ := h
        subst hv
        subst hvs
        simp only [veri.Expr.eval, he]
        exact veri_eval_fold env op rest v₁ vs₁ hr

/-- Witness for C6: `(5 - 7)` over `uint32` wraps; the fold hypothesis
is discharged on concrete literals. -/
theorem bin_expr_fold_spec_witness :
    ast0.Expr.eval (.bin .sub (.cons (.const 5 "") (.cons (.const 7 "") .nil))) =
      some (([7] : List Nat).foldl (ast0.apply32 .sub) 5) :=
  bin_expr_fold_spec.1 .sub (.const 5 "") (.cons (.const 7 "") .nil) 5 [7]
    (by decide)

set_option maxRecDepth 100000 in
/-- C3 counterexample: the loop generator invoked with `depth = 0`
(degenerate single-draw configuration, all-zero draw stream) emits a
file that does contain a `for`-generate loop — `buildNested` wraps even
its base case in a `GenerateFor` — contradicting "the emitted Verilog
file contains no for-generate loop". -/
theorem depth_zero_emits_for_loop :
    containsSub "for(".data
      ((veri.make
          { minStart := 0
            maxStart := 0
            minIter := 1
            maxIter := 1
            randomUpdate := false } "top" 0 0
          (veri.initGen fun _ => 0)).1.text.data) = true := by
  decide

/-- Helper: a degenerate uniform draw (`lo = hi`) is forced to `lo`
and advances the stream by one position. -/
theorem uniformInt_self (lo : Int) (r : veri.Rng) :
    veri.uniformInt lo lo r = (lo, { r with pos := r.pos + 1 }) := by
  simp [veri.uniformInt, veri.Rng.next, Nat.mod_one]

set_option maxRecDepth 100000 in
/-- C3 (amended): with `depth = 0` the generator emits exactly one
`for`-generate level: the statement tree returned by `buildNested` is a
single `GenerateFor` whose body is exactly one `const_block`
instantiation (no nested loop, no `case`-generate), and when the
configuration forces a single constant draw (`min_iter = max_iter = 1`)
the oracle value equals that single drawn constant. -/
theorem depth_zero_single_level (stream : Nat → Nat) (cfg : veri.GenCfg)
    (st : veri.GenSt) (b : Bool) :
    (∃ var lbl sv cond upd prm tgt,
      (veri.buildNested cfg 1 0 0 "t0" st).1 =
        .genFor var lbl sv cond upd (.cons (veri.constInst prm tgt) .nil)) ∧
    veri.Stmt.forCount (veri.buildNested cfg 1 0 0 "t0" st).1 = 1 ∧
    veri.Stmt.caseCount (veri.buildNested cfg 1 0 0 "t0" st).1 = 0 ∧
    ((veri.make
        { minStart := 0
          maxStart := 0
          minIter := 1
          maxIter := 1
          randomUpdate := b } "top" 0 0 (veri.initGen stream)).1.oracle =
      some ((veri.make
        { minStart := 0
          maxStart := 0
          minIter := 1
          maxIter := 1
          randomUpdate := b } "top" 0 0
          (veri.initGen stream)).2.constData.headD 0) ∧
     (veri.make
        { minStart := 0
          maxStart := 0
          minIter := 1
          maxIter := 1
          randomUpdate := b } "top" 0 0
          (veri.initGen stream)).2.constData.length = 1) :=
  ⟨⟨_, _, _, _, _, _, _, rfl⟩, rfl, rfl, by
    cases b <;> constructor <;>
      simp [veri.make, veri.buildNested, veri.initGen, uniformInt_self,
        veri.uniformU32, veri.Rng.next, veri.drawU32List, veri.foldLevels,
        veri.reduceLoop, veri.Expr.eval, veri.constInst]⟩

/-- Helper: `find('.')` locates the splice point of `head ++ "." ++
rest` when `head` is dot-free. -/
theorem findCh_append_cons (c : Char) :
    ∀ a : List Char, findCh c a = none →
      ∀ r : List Char, findCh c (a ++ c :: r) = some a.length
  | [], _, r => by simp [findCh]
  | x :: xs, h, r => by
    simp only [findCh] at h
    by_cases hx : (x == c) = true
    · rw [if_pos hx] at h
      simp at h
    · rw [if_neg hx] at h
      have hxs : findCh c xs = none := by
        cases hfc : findCh c xs with
        | none => rfl
        | some i => rw [hfc] at h; simp at h
      have ih := findCh_append_cons c xs hxs r
      simp [List.cons_append, findCh, if_neg hx, ih]
      exact fun he => hx (by simp [he])

/-- Helper: the child-search loop of `leaf_value` realises a
first-match lookup. -/
theorem leafValueL_findChild :
    ∀ (ch : hier.NodeList) (head : List Char) (tl? : Option (List Char)),
      hier.leafValueL ch head tl? =
        (match hier.findChild ch head with
         | none => 0
         | some k =>
           match tl? with
           | none => k.constVal
           | some t => hier.leafValueN k t)
  | .nil, _, _ => rfl
  | .cons k rest, head, tl? => by
    simp only [hier.leafValueL, hier.findChild]
    by_cases hk : (k.name.data == head) = true
    · rw [if_pos hk, if_pos hk]
    · rw [if_neg hk, if_neg hk]
      exact leafValueL_findChild rest head tl?

/-- C10: `leaf_value` is total and never raises: it returns the node's
stored constant when the dotted path is empty or equals `out`; on a
path `head.rest` with dot-free `head` it descends into the first child
named `head` (a dot-free non-`out` path likewise selects the first
matching child's constant); and it returns `0` — rather than failing —
whenever no child matches the first segment (the `match … | none => 0`
arms). -/
theorem leaf_value_total_spec :
    (∀ n : hier.Node, hier.leafValueN n [] = n.constVal ∧
      hier.leafValueN n "out".data = n.constVal) ∧
    (∀ (n : hier.Node) (head rest : List Char), findCh '.' head = none →
      hier.leafValueN n (head ++ '.' :: rest) =
        (match hier.findChild n.children head with
         | some k => hier.leafValueN k rest
         | none => 0)) ∧
    (∀ (n : hier.Node) (d : List Char), d ≠ [] → d ≠ "out".data →
      findCh '.' d = none →
      hier.leafValueN n d =
        (match hier.findChild n.children d with
         | some k => k.constVal
         | none => 0)) := by
  refine ⟨?_, ?_, ?_⟩
  · intro n
    cases n with
    | mk nm ch cv bg bm => exact ⟨rfl, rfl⟩
  · intro n head rest h
    cases n with
    | mk nm ch cv bg bm =>
      have hd : findCh '.' (head ++ '.' :: rest) = some head.length :=
        findCh_append_cons '.' head h rest
      have hne : head ++ '.' :: rest ≠ "out".data := by
        intro he
        rw [he] at hd
        simp [findCh] at hd
      have hnil : head ++ '.' :: rest ≠ [] := by
        intro he
        exact absurd (List.append_eq_nil.mp he).2 (by simp)
      have hdrop : (head ++ '.' :: rest).drop (head.length + 1) = rest := by
        rw [← List.drop_drop, List.drop_left]
        rfl
      simp only [hier.leafValueN, hier.Node.children]
      rw [if_neg (by simp [hne, hnil]), hd]
      simp only [leafValueL_findChild]
      cases hfc : hier.findChild ch head <;>
        simp [hfc, hdrop, List.take_left]
  · intro n d hnil hnout h
    cases n with
    | mk nm ch cv bg bm =>
      simp only [hier.leafValueN, hier.Node.children]
      rw [if_neg (by simp [hnil, hnout]), h]
      simp only [leafValueL_findChild]
      cases hfc : hier.findChild ch d <;>
        simp [hfc, List.take_length]

/-- Witness for C10: a two-level tree, path `a.out` resolves to the
leaf constant `7`. -/
theorem leaf_value_total_spec_witness :
    hier.leafValueN
      (.mk "top" (.cons (.mk "a" .nil 7 false none) .nil) 3 false none)
      ("a".data ++ '.' :: "out".data) = 7 := by
  have h := leaf_value_total_spec.2.1
    (.mk "top" (.cons (.mk "a" .nil 7 false none) .nil) 3 false none)
    "a".data "out".data (by decide)
  simpa using h

/-- Helper: identifier characters differ from any non-identifier
character. -/
theorem idChar_beq_false {c : Char} (d : Char) (hc : hier.isIdChar c = true)
    (hd : hier.isIdChar d = false) : (d == c) = false := by
  cases hdc : (d == c) with
  | false => rfl
  | true =>
    have he : d = c := by simpa using hdc
    rw [he, hc] at hd
    exact Bool.noConfusion hd

/-- Helper: an identifier segment is non-empty with identifier
characters only. -/
theorem identSeg_mem {s : List Char} (h : hier.identSeg s = true) :
    s ≠ [] ∧ ∀ c ∈ s, hier.isIdChar c = true := by
  unfold hier.identSeg at h
  simp only [Bool.and_eq_true, List.all_eq_true] at h
  refine ⟨?_, h.2⟩
  intro he
  rw [he] at h
  simp at h

/-- Helper: dot-free identifier segments have no `'.'` occurrence. -/
theorem findCh_dot_none :
    ∀ s : List Char, (∀ c ∈ s, hier.isIdChar c = true) →
      findCh '.' s = none
  | [], _ => rfl
  | c :: cs, h => by
    have hc : (c == '.') = false := by
      cases hcc : (c == '.') with
      | false => rfl
      | true =>
        have : c = '.' := by simpa using hcc
        rw [this] at h
        have := h '.' (by simp)
        exact Bool.noConfusion this
    simp [findCh, hc, findCh_dot_none cs (fun d hd => h d (by simp [hd]))]

/-- Helper: the head of a dotted join of segments is the head character
of the first segment. -/
theorem joinSegs_cons_head (s : List Char) (rest : List (List Char))
    (h : s ≠ []) :
    ∃ c l, hier.joinSegs (s :: rest) = c :: l ∧ c ∈ s := by
  rcases s with _ | ⟨c, s'⟩
  · exact absurd rfl h
  · cases rest with
    | nil => exact ⟨c, s', rfl, by simp⟩
    | cons r rs =>
      exact ⟨c, s' ++ '.' :: hier.joinSegs (r :: rs), rfl, by simp⟩

/-- Helper: a string headed by an identifier character starts with
neither `$root.` nor `..`. -/
theorem startsWith_root_up_false {c : Char} (hc : hier.isIdChar c = true)
    (l : List Char) :
    startsWithL hier.rootTok (c :: l) = false ∧
    startsWithL hier.upTok (c :: l) = false := by
  have hdol : ('$' == c) = false := idChar_beq_false '$' hc (by decide)
  have hdot : ('.' == c) = false := idChar_beq_false '.' hc (by decide)
  constructor
  · simp [hier.rootTok, startsWithL, hdol]
  · simp [hier.upTok, startsWithL, hdot]

/-- Helper: a dotted join of identifier segments starts with `top.`
only when its first segment is the bare name `top` and further segments
follow. -/
theorem startsWith_top_join_false (s : List Char) (rest : List (List Char))
    (hs : hier.identSeg s = true) (htop : s = hier.topSeg → rest = []) :
    startsWithL hier.topTok (hier.joinSegs (s :: rest)) = false := by
  obtain ⟨hne, hmem⟩ := identSeg_mem hs
  cases rest with
  | nil =>
    rw [show hier.joinSegs [s] = s from rfl]
    rcases s with _ | ⟨a, _ | ⟨b, _ | ⟨c, _ | ⟨d, t⟩⟩⟩⟩
    · rfl
    · simp [hier.topTok, startsWithL]
    · simp [hier.topTok, startsWithL]
    · simp [hier.topTok, startsWithL]
    · have hd : ('.' == d) = false :=
        idChar_beq_false '.' (hmem d (by simp)) (by decide)
      simp [hier.topTok, startsWithL, hd]
  | cons r rs =>
    rw [show hier.joinSegs (s :: r :: rs) =
      s ++ '.' :: hier.joinSegs (r :: rs) from rfl]
    rcases s with _ | ⟨a, _ | ⟨b, _ | ⟨c, _ | ⟨d, t⟩⟩⟩⟩
    · exact absurd rfl hne
    · simp [hier.topTok, startsWithL]
    · simp [hier.topTok, startsWithL]
    · have hne3 : ¬('t' = a ∧ 'o' = b ∧ 'p' = c) := by
        rintro ⟨ha, hb, hc⟩
        subst ha; subst hb; subst hc
        exact List.noConfusion (htop rfl)
      cases ha : ('t' == a) with
      | false => simp [hier.topTok, startsWithL, ha]
      | true =>
        cases hb : ('o' == b) with
        | false => simp [hier.topTok, startsWithL, hb]
        | true =>
          cases hc : ('p' == c) with
          | false => simp [hier.topTok, startsWithL, hc]
          | true =>
            exfalso
            exact hne3 ⟨by simpa using ha, by simpa using hb, by simpa using hc⟩
    · have hd : ('.' == d) = false :=
        idChar_beq_false '.' (hmem d (by simp)) (by decide)
      simp [hier.topTok, startsWithL, hd]

/-- Helper: the `top.`-stripping loop is the identity when the marker
is absent, for every fuel. -/
theorem dropTopsL_id {p : List Char}
    (h : startsWithL hier.topTok p = false) :
    ∀ fuel, hier.dropTopsL fuel p = p
  | 0 => rfl
  | fuel + 1 => by simp [hier.dropTopsL, h]

/-- Helper: the `..`-stripping loop is the identity when the marker is
absent, for every fuel. -/
theorem dropUpsL_id {p : List Char}
    (h : startsWithL hier.upTok p = false) :
    ∀ fuel, hier.dropUpsL fuel p = p
  | 0 => rfl
  | fuel + 1 => by simp [hier.dropUpsL, h]

/-- Helper: every string starts with itself followed by anything. -/
theorem startsWith_append_self :
    ∀ pre l : List Char, startsWithL pre (pre ++ l) = true
  | [], _ => rfl
  | c :: cs, l => by simp [startsWithL, startsWith_append_self cs l]

/-- Helper: one round of `top.` stripping followed by a non-matching
remainder. -/
theorem dropTopsL_strip {q : List Char}
    (h : startsWithL hier.topTok q = false) :
    ∀ fuel, 1 ≤ fuel →
      hier.dropTopsL fuel (hier.topTok ++ q) = q := by
  intro fuel hf
  cases fuel with
  | zero => omega
  | succ f =>
    have hs : startsWithL hier.topTok (hier.topTok ++ q) = true :=
      startsWith_append_self _ _
    have hdrop : (hier.topTok ++ q).drop 4 = q := rfl
    rw [hier.dropTopsL, if_pos hs, hdrop]
    exact dropTopsL_id h f

/-- Helper: a string free of the three markers is a fixed point of
`normalised`. -/
theorem normalisedL_id_of_noBad {p : List Char} (h : hier.NoBadPrefix p) :
    hier.normalisedL p = p := by
  obtain ⟨h1, h2, h3⟩ := h
  have hstrip : hier.stripRootL p = p := by
    unfold hier.stripRootL
    rw [if_neg (by simp [h1])]
  show hier.normalisedL p = p
  unfold hier.normalisedL
  rw [hstrip]
  show hier.dropUpsL (hier.dropTopsL p.length p).length
    (hier.dropTopsL p.length p) = p
  rw [dropTopsL_id h2, dropUpsL_id h3]

/-- Helper: the empty string is free of all three markers. -/
theorem noBad_nil : hier.NoBadPrefix [] := ⟨rfl, rfl, rfl⟩

/-- Helper: a dotted join of identifier segments, none of whose
non-head segments is the bare root name, is free of all three markers
(given that a head equal to `top` has no successors). -/
theorem noBad_join (s : List Char) (rest : List (List Char))
    (hs : hier.identSeg s = true)
    (htop : s = hier.topSeg → rest = []) :
    hier.NoBadPrefix (hier.joinSegs (s :: rest)) := by
  obtain ⟨hne, hmem⟩ := identSeg_mem hs
  obtain ⟨c, l, hj, hc⟩ := joinSegs_cons_head s rest hne
  have hid := hmem c hc
  refine ⟨?_, ?_, ?_⟩
  · rw [hj]; exact (startsWith_root_up_false hid l).1
  · exact startsWith_top_join_false s rest hs htop
  · rw [hj]; exact (startsWith_root_up_false hid l).2

/-- Helper: let-free reading of `normalised`. -/
theorem normalisedL_eq (p : List Char) :
    hier.normalisedL p =
      hier.dropUpsL
        (hier.dropTopsL (hier.stripRootL p).length (hier.stripRootL p)).length
        (hier.dropTopsL (hier.stripRootL p).length (hier.stripRootL p)) := rfl

/-- Helper: `$root.` stripping is the identity when the marker is
absent. -/
theorem stripRootL_id {p : List Char}
    (h : startsWithL hier.rootTok p = false) : hier.stripRootL p = p := by
  unfold hier.stripRootL
  rw [if_neg (by simp [h])]

/-- Helper: normalisation of a plain generated path (form one of
`ProduciblePath`) yields a marker-free string. -/
theorem noBad_normalised_plain (s : List Char) (rest : List (List Char))
    (hs : hier.identSeg s = true)
    (hrest : ∀ t ∈ rest, hier.identSeg t = true ∧ t ≠ hier.topSeg) :
    hier.NoBadPrefix (hier.normalisedL (hier.joinSegs (s :: rest))) := by
  by_cases hst : s = hier.topSeg ∧ rest ≠ []
  · obtain ⟨hseq, hrne⟩ := hst
    rcases rest with _ | ⟨r, rs⟩
    · exact absurd rfl hrne
    · subst hseq
      have hr := hrest r (by simp)
      have hrs : ∀ t ∈ rs, hier.identSeg t = true ∧ t ≠ hier.topSeg :=
        fun t ht => hrest t (by simp [ht])
      have hnext : startsWithL hier.topTok (hier.joinSegs (r :: rs)) = false :=
        startsWith_top_join_false r rs hr.1 (fun hh => absurd hh hr.2)
      have hnb : hier.NoBadPrefix (hier.joinSegs (r :: rs)) :=
        noBad_join r rs hr.1 (fun hh => absurd hh hr.2)
      have hjoin : hier.joinSegs (hier.topSeg :: r :: rs) =
          hier.topTok ++ hier.joinSegs (r :: rs) := rfl
      rw [hjoin, normalisedL_eq]
      rw [stripRootL_id (show startsWithL hier.rootTok
        (hier.topTok ++ hier.joinSegs (r :: rs)) = false from rfl)]
      rw [dropTopsL_strip hnext _ (by simp [hier.topTok])]
      rw [dropUpsL_id hnb.2.2]
      exact hnb
  · have htop : s = hier.topSeg → rest = [] := by
      intro hseq
      by_contra hrne
      exact hst ⟨hseq, hrne⟩
    have hnb := noBad_join s rest hs htop
    rw [normalisedL_id_of_noBad hnb]
    exact hnb

/-- Helper: normalisation of a `$root.tb.top.`-qualified path (form
two of `ProduciblePath`) yields a marker-free string, whatever the
suffix. -/
theorem noBad_normalised_root (q : List Char) :
    hier.NoBadPrefix (hier.normalisedL (hier.rootPrefTok ++ q)) := by
  have h1 : hier.stripRootL (hier.rootPrefTok ++ q) =
      't' :: 'b' :: '.' :: (hier.topTok ++ q) := rfl
  rw [normalisedL_eq, h1]
  rw [dropTopsL_id (show startsWithL hier.topTok
    ('t' :: 'b' :: '.' :: (hier.topTok ++ q)) = false from rfl)]
  rw [dropUpsL_id (show startsWithL hier.upTok
    ('t' :: 'b' :: '.' :: (hier.topTok ++ q)) = false from rfl)]
  exact ⟨rfl, rfl, rfl⟩

/-- Helper: normalisation of a `..`-qualified path (form three of
`ProduciblePath`) yields a marker-free string. -/
theorem noBad_normalised_up (s : List Char) (rest : List (List Char))
    (hs : hier.identSeg s = true)
    (hrest : ∀ t ∈ rest, hier.identSeg t = true ∧ t ≠ hier.topSeg) :
    hier.NoBadPrefix
      (hier.normalisedL ('.' :: '.' :: hier.joinSegs (s :: rest))) := by
  obtain ⟨hne, hmem⟩ := identSeg_mem hs
  have hdots : findCh '.' s = none := findCh_dot_none s hmem
  rw [normalisedL_eq]
  rw [stripRootL_id (show startsWithL hier.rootTok
    ('.' :: '.' :: hier.joinSegs (s :: rest)) = false from rfl)]
  rw [dropTopsL_id (show startsWithL hier.topTok
    ('.' :: '.' :: hier.joinSegs (s :: rest)) = false from rfl)]
  cases rest with
  | nil =>
    have hdf : hier.findDotFrom2 ('.' :: '.' :: hier.joinSegs [s]) = none := by
      unfold hier.findDotFrom2
      rw [show ('.' :: '.' :: hier.joinSegs [s]).drop 2 =
        hier.joinSegs [s] from rfl]
      rw [show hier.joinSegs [s] = s from rfl, hdots]
      rfl
    have hlen : 1 ≤ ('.' :: '.' :: hier.joinSegs [s]).length := by simp
    rcases hfl : ('.' :: '.' :: hier.joinSegs [s]).length with _ | f
    · rw [hfl] at hlen; omega
    · rw [hier.dropUpsL]
      rw [if_pos (by rfl)]
      rw [hdf]
      exact noBad_nil
  | cons r rs =>
    have hr := hrest r (by simp)
    have hnb : hier.NoBadPrefix (hier.joinSegs (r :: rs)) :=
      noBad_join r rs hr.1 (fun hh => absurd hh hr.2)
    have hjoin : hier.joinSegs (s :: r :: rs) =
        s ++ '.' :: hier.joinSegs (r :: rs) := rfl
    have hdf : hier.findDotFrom2 ('.' :: '.' :: hier.joinSegs (s :: r :: rs)) =
        some (s.length + 2) := by
      unfold hier.findDotFrom2
      rw [show ('.' :: '.' :: hier.joinSegs (s :: r :: rs)).drop 2 =
        hier.joinSegs (s :: r :: rs) from rfl, hjoin]
      rw [findCh_append_cons '.' s hdots (hier.joinSegs (r :: rs))]
      rfl
    have hdrop : ('.' :: '.' :: hier.joinSegs (s :: r :: rs)).drop
        (s.length + 2 + 1) = hier.joinSegs (r :: rs) := by
      rw [hjoin]
      show (s ++ '.' :: hier.joinSegs (r :: rs)).drop (s.length + 1) =
        hier.joinSegs (r :: rs)
      rw [← List.drop_drop, List.drop_left]
      rfl
    rcases hfl : ('.' :: '.' :: hier.joinSegs (s :: r :: rs)).length
      with _ | f
    · simp at hfl
    · rw [hier.dropUpsL]
      rw [if_pos (by rfl)]
      rw [hdf]
      show hier.NoBadPrefix (hier.dropUpsL f (List.drop (s.length + 2 + 1)
        ('.' :: '.' :: hier.joinSegs (s :: r :: rs))))
      rw [hdrop]
      rw [dropUpsL_id hnb.2.2]
      exact hnb

/-- Helper: normalisation of any producible operand path is
marker-free. -/
theorem noBad_normalised (p : List Char) (h : hier.ProduciblePath p) :
    hier.NoBadPrefix (hier.normalisedL p) := by
  rcases h with ⟨s, rest, hp, hs, hrest⟩ | ⟨q, hp⟩ | ⟨s, rest, hp, hs, hrest⟩
  · subst hp; exact noBad_normalised_plain s rest hs hrest
  · subst hp; exact noBad_normalised_root q
  · subst hp; exact noBad_normalised_up s rest hs hrest

/-- C8: `normalised` is idempotent on every hierarchical path the
generator can produce as an operand — plain leaf paths,
`$root.tb.top.`-qualified paths, and leading-`..` relative paths. -/
theorem normalised_idempotent (p : String)
    (h : hier.ProduciblePath p.data) :
    hier.normalised (hier.normalised p) = hier.normalised p := by
  have key := normalisedL_id_of_noBad (noBad_normalised p.data h)
  unfold hier.normalised
  exact congrArg String.mk key

/-- Witness for C8 at the relative path `..top_c0_c1.out`. -/
theorem normalised_idempotent_witness :
    hier.normalised (hier.normalised "..top_c0_c1.out") =
      hier.normalised "..top_c0_c1.out" :=
  normalised_idempotent "..top_c0_c1.out"
    (Or.inr (Or.inr ⟨"top_c0_c1".data, ["out".data], by decide, by decide,
      by decide⟩))
